import Mathlib

/-!
Verification of the CloudPred core (cloudpred/cloudpred.py) against its
natural-language specification.  The Python modules are shallowly embedded:
tensors become lists of reals, per-row tensor operations become list
operations, and the opaque collaborators (torch autograd plus SGD, the
sklearn mixture fit, and cloudpred.utils.train_classifier) are modelled as
explicit parameters of the embedded training loop.  Floating-point loss
values compared by the training loop are modelled by the type Flt, which
keeps the IEEE comparison behaviour of the three kinds of value the loop
can see: plus infinity, NaN, and finite numbers.
-/

namespace Cloudpred

/-- Clamp from below, as the torch clamp call with a single lower bound. -/
def clampMin (x lo : ℝ) : ℝ := max x lo

/-- Effective inverse variance used by Gaussian.forward (line 93):
absolute value followed by a clamp at the floor 1e-5. -/
noncomputable def effInvvar (v : ℝ) : ℝ := clampMin |v| (1 / 100000)

/-- State of one Gaussian component (class Gaussian, lines 86-90):
a mean vector and a stored inverse variance vector. -/
structure Gaussian where
  mu : List ℝ
  invvar : List ℝ

/-- Embedding of Gaussian.forward (lines 92-95) on one input row:
the constant term is log(2 pi) without a dimension factor, minus the sum of
the logs of the effective inverse variances, plus the weighted squared
deviations; the whole multiplied by -1/2. -/
noncomputable def Gaussian.forward (g : Gaussian) (x : List ℝ) : ℝ :=
  -(1 / 2) * (Real.log (2 * Real.pi)
    - (g.invvar.map (fun v => Real.log (effInvvar v))).sum
    + (List.zipWith (fun p xi => (p.1 - xi) ^ 2 * effInvvar p.2) (g.mu.zip g.invvar) x).sum)

/-- The formula written in the specification for the Gaussian component,
which carries the dimension factor D on the log(2 pi) term.  Kept separate
so it can be compared with the embedded code. -/
noncomputable def specGaussianLogp (g : Gaussian) (x : List ℝ) : ℝ :=
  -(1 / 2) * ((g.mu.length : ℝ) * Real.log (2 * Real.pi)
    - (g.invvar.map (fun v => Real.log (effInvvar v))).sum
    + (List.zipWith (fun p xi => (p.1 - xi) ^ 2 * effInvvar p.2) (g.mu.zip g.invvar) x).sum)

/-- State of the mixture (class Mixture, lines 98-102): the ordered list of
Gaussian components and one mixing weight per component. -/
structure Mixture where
  component : List Gaussian
  weights : List ℝ

/-- Maximum of a list of reals; used for the per-cell shift taken by
torch.max over the component dimension (line 106). -/
def listMax : List ℝ → ℝ
  | [] => 0
  | a :: l => l.foldl max a

/-- Shifted, weighted per-component scores of one cell (line 107): for each
component, exp of its log density minus the per-cell maximum, times the
mixing weight of the component. -/
noncomputable def cellScores (m : Mixture) (row : List ℝ) : List ℝ :=
  List.zipWith
    (fun l w => Real.exp (l - listMax (m.component.map (fun c => Gaussian.forward c row))) * w)
    (m.component.map (fun c => Gaussian.forward c row)) m.weights

/-- Per-cell responsibilities (the normalisation inside line 108): each
score divided by the sum of the scores of that cell. -/
noncomputable def cellResp (m : Mixture) (row : List ℝ) : List ℝ :=
  (cellScores m row).map (fun q => q / (cellScores m row).sum)

/-- Embedding of Mixture.forward (lines 104-108): entry c of the output is
the mean over all cells of the responsibility of the cell for component c.
In the tensor code this is torch.mean of p divided by its per-cell sum,
taken over the cell dimension. -/
noncomputable def Mixture.forward (m : Mixture) (x : List (List ℝ)) : List ℝ :=
  (List.range m.component.length).map
    (fun c => (x.map (fun row => (cellResp m row).getD c 0)).sum / (x.length : ℝ))

/-- State of one Polynomial (class Polynomial, lines 132-138): coefficient
matrix of shape degree x centers and a scalar bias, both zero-initialised. -/
structure Polynomial where
  centers : ℕ
  degree : ℕ
  a : List (List ℝ)
  c : ℝ

/-- Zero initialisation performed by the Polynomial constructor with the
default degree 2 (lines 133-138). -/
def Polynomial.init (centers : ℕ) : Polynomial :=
  ⟨centers, 2, List.replicate 2 (List.replicate centers 0), 0⟩

/-- Embedding of Polynomial.forward (lines 140-141) on one signature row:
sum over powers i+1 of the coefficient-weighted powers of the entries,
plus the bias. -/
def Polynomial.forward (p : Polynomial) (row : List ℝ) : ℝ :=
  ((List.range p.degree).map
    (fun i => (List.zipWith (fun aij xj => aij * xj ^ (i + 1)) (p.a.getD i []) row).sum)).sum
    + p.c

/-- State of the polynomial layer (class PolynomialLayer, lines 122-125):
one Polynomial per non-reference class. -/
structure PolynomialLayer where
  polynomial : List Polynomial

/-- Constructor of PolynomialLayer (lines 123-125): states - 1 Polynomials,
each zero-initialised over the given number of centers. -/
def PolynomialLayer.init (centers states : ℕ) : PolynomialLayer :=
  ⟨(List.range (states - 1)).map (fun _ => Polynomial.init centers)⟩

/-- Embedding of PolynomialLayer.forward (lines 127-129): for every input
row, a zero for the reference class followed by the score of each
Polynomial on that row. -/
def PolynomialLayer.forward (pl : PolynomialLayer) (x : List (List ℝ)) : List (List ℝ) :=
  x.map (fun row => 0 :: pl.polynomial.map (fun p => Polynomial.forward p row))

/-- State of the density classifier (class DensityClassifier,
lines 111-115): a mixture and a polynomial layer. -/
structure DensityClassifier where
  mixture : Mixture
  pl : PolynomialLayer

/-- Constructor of DensityClassifier (lines 112-115). -/
def DensityClassifier.init (mixture : Mixture) (centers states : ℕ) : DensityClassifier :=
  ⟨mixture, PolynomialLayer.init centers states⟩

/-- Result of the external sklearn GaussianMixture fit (lines 18-19):
per-component means, diagonal covariances, and mixing weights. -/
structure GMFit where
  means : List (List ℝ)
  covariances : List (List ℝ)
  weights : List ℝ

/-- Component construction in train (lines 21-22): component i keeps the
fitted mean row i and the reciprocal of the fitted covariance row i. -/
noncomputable def trainComponents (gm : GMFit) (centers : ℕ) : List Gaussian :=
  (List.range centers).map
    (fun i => ⟨gm.means.getD i [], (gm.covariances.getD i []).map (fun v => 1 / v)⟩)

/-- Classifier construction in train (lines 21-24): the mixture built from
the fit, wrapped in a DensityClassifier whose states argument is the
literal 2, independent of the labels appearing in Xtrain. -/
noncomputable def trainInit (Xtrain : List (List (List ℝ) × ℤ)) (gm : GMFit) (centers : ℕ) :
    DensityClassifier :=
  DensityClassifier.init ⟨trainComponents gm centers, gm.weights⟩ centers 2

/-- Arguments passed to the external collaborator
cloudpred.utils.train_classifier (lines 73-75 and 80-82). -/
structure TrainerCall where
  iterations : ℕ
  eta : ℚ
  stochastic : Bool
  regression : Bool

/-- The call made at the end of train (lines 73-75). -/
def trainFinalCall (regression : Bool) : TrainerCall :=
  ⟨1000, 1 / 10000, true, regression⟩

/-- The call made by eval (lines 80-82). -/
def evalCall (regression : Bool) : TrainerCall :=
  ⟨1, 0, true, regression⟩

/-- Floating-point value as seen by the checkpoint comparison of the
training loop: plus infinity (the initial best loss, line 47), NaN, or a
finite value.  Finite values are modelled by rationals, which cover every
finite IEEE double exactly. -/
inductive Flt where
  | inf : Flt
  | nan : Flt
  | fin : ℚ → Flt

/-- Strict IEEE comparison used on line 67: any comparison against NaN is
false, infinity is below nothing, and a finite value is below infinity. -/
def Flt.lt : Flt → Flt → Bool
  | _, Flt.nan => false
  | Flt.nan, _ => false
  | Flt.inf, _ => false
  | Flt.fin _, Flt.inf => true
  | Flt.fin a, Flt.fin b => decide (a < b)

/-- Non-strict IEEE comparison, used to state the claim about the final
validation loss never being worse than the starting one. -/
def Flt.le : Flt → Flt → Bool
  | Flt.nan, _ => false
  | _, Flt.nan => false
  | _, Flt.inf => true
  | Flt.inf, _ => false
  | Flt.fin a, Flt.fin b => decide (a ≤ b)

/-- Opaque collaborators of one training run over parameter state Θ.
traj lr s i gives the parameters after the update of epoch i of a stage
that started from parameters s at learning rate lr: a fresh SGD optimizer
is created at the start of every stage (line 42), so within a stage the
trajectory is a deterministic function of the rate and the starting
parameters.  vloss gives the validation loss of a parameter state, the
value compared on line 67. -/
structure TrainEnv (Θ : Type) where
  traj : ℚ → Θ → ℕ → Θ
  vloss : Θ → Flt

/-- One epoch of the checkpoint bookkeeping (lines 51-69): after the
gradient update of epoch i, the validation loss is compared against the
best loss of the stage, and on strict improvement both the best loss and
the best snapshot are replaced. -/
def stageStep {Θ : Type} (E : TrainEnv Θ) (lr : ℚ) (θin : Θ) (acc : Flt × Θ) (i : ℕ) :
    Flt × Θ :=
  if Flt.lt (E.vloss (E.traj lr θin i)) acc.1
  then (E.vloss (E.traj lr θin i), E.traj lr θin i)
  else acc

/-- One learning-rate stage (lines 47-69): best loss starts at infinity,
the best snapshot starts as a copy of the incoming parameters, and the
epoch loop runs 1000 times. -/
def runStageAcc {Θ : Type} (E : TrainEnv Θ) (lr : ℚ) (θin : Θ) : Flt × Θ :=
  (List.range 1000).foldl (stageStep E lr θin) (Flt.inf, θin)

/-- Parameters loaded back at the end of a stage (line 70): the best
snapshot of the stage. -/
def runStage {Θ : Type} (E : TrainEnv Θ) (lr : ℚ) (θin : Θ) : Θ :=
  (runStageAcc E lr θin).2

/-- The fixed descending learning-rate schedule of line 40. -/
def rates : List ℚ := [100, 10, 1, 1 / 10, 1 / 100, 1 / 1000]

/-- The full learning-rate schedule (lines 40-70): each stage continues
from the parameters reloaded at the end of the previous stage. -/
def runSchedule {Θ : Type} (E : TrainEnv Θ) (θ0 : Θ) : Θ :=
  rates.foldl (fun θ lr => runStage E lr θ) θ0

/-- The first five stages of the schedule; the full schedule is these
five stages followed by the stage at rate 1/1000. -/
def firstStages {Θ : Type} (E : TrainEnv Θ) (θ0 : Θ) : Θ :=
  ([100, 10, 1, 1 / 10, 1 / 100] : List ℚ).foldl (fun θ lr => runStage E lr θ) θ0

/-- The schedule seen at the level of the whole classifier: the optimizer
of every stage receives only the parameters of the polynomial layer
(line 42) and the signatures fed to the loop were detached (lines 26
and 32), so an epoch maps the pair (mixture, pl) to (mixture, updated pl)
and the reload of line 70 replaces only the pl state. -/
def runScheduleClf (E : TrainEnv PolynomialLayer) (C : DensityClassifier) :
    DensityClassifier :=
  rates.foldl (fun Ccur lr => ⟨Ccur.mixture, runStage E lr Ccur.pl⟩) C

/-- A concrete run on rational parameter states: every gradient update
moves the parameters to the constant state 1, and the validation loss of
state q is the finite value q. -/
def E0 : TrainEnv ℚ := ⟨fun _ _ _ => 1, fun q => Flt.fin q⟩

/-- A concrete run whose validation loss is NaN at every state. -/
def Enan : TrainEnv ℚ := ⟨fun _ _ _ => 0, fun _ => Flt.nan⟩

/-- A concrete single-component mixture used to instantiate theorems. -/
def m1 : Mixture := ⟨[⟨[0], [1]⟩], [1]⟩

/-- A concrete training set whose labels take three distinct values. -/
def Xtrain0 : List (List (List ℝ) × ℤ) := [([[0, 0]], 0), ([[0, 0]], 1), ([[0, 0]], 2)]

/-- A concrete two-component fit result. -/
noncomputable def gm0 : GMFit := ⟨[[0, 0], [1, 1]], [[1, 1], [1, 1]], [1 / 2, 1 / 2]⟩

/-- Claim C5: for every stored inverse-variance entry, including zero and
negative ones, the effective inverse variance used by Gaussian.forward is
max of the absolute value and the floor 1e-5; it is strictly positive, so
its logarithm is the logarithm of a genuine positive number and the
product terms are well defined. -/
theorem c5_effective_invvar (v : ℝ) :
    effInvvar v = max |v| (1 / 100000) ∧ 0 < effInvvar v ∧
      Real.exp (Real.log (effInvvar v)) = effInvvar v := by
  have h : 0 < effInvvar v := by
    unfold effInvvar clampMin
    exact lt_of_lt_of_le (by norm_num) (le_max_right _ _)
  exact ⟨rfl, h, Real.exp_log h⟩

/-- Claim C2: the code and the specification formula disagree.  On the
two-dimensional input with means zero, inverse variances one and input
zero, Gaussian.forward returns -(1/2) log(2 pi), while the formula of the
specification, which multiplies log(2 pi) by the dimension D, gives
-log(2 pi); the two values differ. -/
theorem c2_gaussian_log_constant :
    Gaussian.forward ⟨[0, 0], [1, 1]⟩ [0, 0] = -(1 / 2) * Real.log (2 * Real.pi) ∧
    specGaussianLogp ⟨[0, 0], [1, 1]⟩ [0, 0] = -(Real.log (2 * Real.pi)) ∧
    Gaussian.forward ⟨[0, 0], [1, 1]⟩ [0, 0] ≠ specGaussianLogp ⟨[0, 0], [1, 1]⟩ [0, 0] := by
  have he : effInvvar 1 = 1 := by
    unfold effInvvar clampMin
    rw [abs_one]
    exact max_eq_left (by norm_num)
  have hlog : (0 : ℝ) < Real.log (2 * Real.pi) := by
    apply Real.log_pos
    have := Real.pi_gt_three
    linarith
  have h1 : Gaussian.forward ⟨[0, 0], [1, 1]⟩ [0, 0] = -(1 / 2) * Real.log (2 * Real.pi) := by
    simp [Gaussian.forward, he]
  have h2 : specGaussianLogp ⟨[0, 0], [1, 1]⟩ [0, 0] = -(Real.log (2 * Real.pi)) := by
    simp [specGaussianLogp, he]
  refine ⟨h1, h2, ?_⟩
  rw [h1, h2]
  intro hEq
  linarith

/-- Claim C3, counterexample: eval does not invoke the external trainer
with zero iterations; the call at lines 80-82 passes iterations equal to
one. -/
theorem c3_counterexample :
    ¬ ((evalCall false).iterations = 0 ∧ (evalCall false).eta = 0) := by
  intro h
  exact absurd h.1 (by decide)

/-- Claim C3, amended: for every model and test split, eval invokes the
external classifier-trainer interface with exactly one iteration and zero
learning rate, the argument combination that performs scoring only. -/
theorem c3_eval_call_args (r : Bool) :
    (evalCall r).iterations = 1 ∧ (evalCall r).eta = 0 :=
  ⟨rfl, rfl⟩

/-- Claim C9: across the whole learning-rate schedule the mixture state of
the classifier is unchanged, and the polynomial-layer state is exactly the
one produced by running the schedule on the polynomial-layer parameters
alone. -/
theorem c9_mixture_frame (E : TrainEnv PolynomialLayer) (C : DensityClassifier) :
    (runScheduleClf E C).mixture = C.mixture ∧
      (runScheduleClf E C).pl = runSchedule E C.pl := by
  constructor <;>
    simp only [runScheduleClf, runSchedule, rates, List.foldl_cons, List.foldl_nil]

/-- Claim C8: for every parameter state of the polynomial layer and every
input batch, the first entry of every output row is zero. -/
theorem c8_first_column_zero (pl : PolynomialLayer) (x : List (List ℝ)) :
    ∀ row ∈ PolynomialLayer.forward pl x, row.head? = some 0 := by
  intro row hrow
  rcases List.mem_map.mp hrow with ⟨r, _, rfl⟩
  rfl

/-- Evaluation of the zero-initialised two-center polynomial layer on one
concrete batch; used to instantiate membership hypotheses. -/
theorem plInit_forward_eval :
    PolynomialLayer.forward (PolynomialLayer.init 2 2) [[(0 : ℝ), 0]] = [[0, 0]] := by
  simp [PolynomialLayer.forward, PolynomialLayer.init, Polynomial.init, Polynomial.forward,
    List.range_succ]

/-- Witness for claim C8 at a concrete layer and batch. -/
theorem c8_first_column_zero_witness : (List.head? [(0 : ℝ), 0]) = some 0 :=
  c8_first_column_zero (PolynomialLayer.init 2 2) [[0, 0]] [0, 0]
    (by rw [plInit_forward_eval]; exact List.mem_singleton_self _)

/-- Claim C10: whatever training data, fit result and center count train
receives, the classifier it builds has exactly one Polynomial, and every
score row produced by its polynomial layer has exactly two entries. -/
theorem c10_states_hardcoded (Xtrain : List (List (List ℝ) × ℤ)) (gm : GMFit) (centers : ℕ) :
    (trainInit Xtrain gm centers).pl.polynomial.length = 1 ∧
      ∀ (x : List (List ℝ)),
        ∀ row ∈ PolynomialLayer.forward (trainInit Xtrain gm centers).pl x,
          row.length = 2 := by
  constructor
  · simp [trainInit, DensityClassifier.init, PolynomialLayer.init]
  · intro x row hrow
    rcases List.mem_map.mp hrow with ⟨r, _, rfl⟩
    simp [trainInit, DensityClassifier.init, PolynomialLayer.init]

/-- The strict comparison is irreflexive. -/
theorem flt_lt_irrefl (a : Flt) : Flt.lt a a = false := by
  cases a with
  | inf => rfl
  | nan => rfl
  | fin v => simp [Flt.lt]

/-- Nothing is strictly below a NaN left operand. -/
theorem flt_lt_nan_left (b : Flt) : Flt.lt Flt.nan b = false := by
  cases b <;> rfl

/-- Infinity is strictly below nothing. -/
theorem flt_lt_inf_left (b : Flt) : Flt.lt Flt.inf b = false := by
  cases b <;> rfl

/-- Every finite value is strictly below infinity. -/
theorem flt_lt_fin_inf (q : ℚ) : Flt.lt (Flt.fin q) Flt.inf = true := rfl

/-- The strict comparison is transitive. -/
theorem flt_lt_trans (a b c : Flt) (hab : Flt.lt a b = true) (hbc : Flt.lt b c = true) :
    Flt.lt a c = true := by
  cases a <;> cases b <;> cases c <;> simp_all [Flt.lt]
  exact lt_trans hab hbc

/-- After one bookkeeping step, the loss of that epoch is not strictly
below the stored best loss. -/
theorem stageStep_self_bound {Θ : Type} (E : TrainEnv Θ) (lr : ℚ) (θin : Θ)
    (acc : Flt × Θ) (i : ℕ) :
    Flt.lt (E.vloss (E.traj lr θin i)) ((stageStep E lr θin acc i).1) = false := by
  by_cases h : Flt.lt (E.vloss (E.traj lr θin i)) acc.1 = true
  · simp [stageStep, h, flt_lt_irrefl]
  · simp only [Bool.not_eq_true] at h
    simp [stageStep, h]

/-- One bookkeeping step keeps any value that already failed to be below
the stored best loss failing to be below it. -/
theorem stageStep_mono {Θ : Type} (E : TrainEnv Θ) (lr : ℚ) (θin : Θ) (v : Flt)
    (acc : Flt × Θ) (i : ℕ) (hv : Flt.lt v acc.1 = false) :
    Flt.lt v ((stageStep E lr θin acc i).1) = false := by
  by_cases h : Flt.lt (E.vloss (E.traj lr θin i)) acc.1 = true
  · cases hcon : Flt.lt v ((stageStep E lr θin acc i).1) with
    | false => rfl
    | true =>
      exfalso
      have hred : (stageStep E lr θin acc i).1 = E.vloss (E.traj lr θin i) := by
        simp [stageStep, h]
      rw [hred] at hcon
      have htr := flt_lt_trans v (E.vloss (E.traj lr θin i)) acc.1 hcon h
      rw [htr] at hv
      simp at hv
  · simp only [Bool.not_eq_true] at h
    simpa [stageStep, h] using hv

/-- The fold of bookkeeping steps preserves failure to be below the best
loss. -/
theorem foldl_stage_mono {Θ : Type} (E : TrainEnv Θ) (lr : ℚ) (θin : Θ) (v : Flt) :
    ∀ (L : List ℕ) (acc : Flt × Θ), Flt.lt v acc.1 = false →
      Flt.lt v ((L.foldl (stageStep E lr θin) acc).1) = false := by
  intro L
  induction L with
  | nil => intro acc h; simpa using h
  | cons j L ih =>
    intro acc h
    rw [List.foldl_cons]
    exact ih (stageStep E lr θin acc j) (stageStep_mono E lr θin v acc j h)

/-- No epoch of the fold ends with a validation loss strictly below the
final stored best loss. -/
theorem foldl_stage_dominates {Θ : Type} (E : TrainEnv Θ) (lr : ℚ) (θin : Θ) :
    ∀ (L : List ℕ) (acc : Flt × Θ) (i : ℕ), i ∈ L →
      Flt.lt (E.vloss (E.traj lr θin i)) ((L.foldl (stageStep E lr θin) acc).1) = false := by
  intro L
  induction L with
  | nil => intro acc i hi; simp at hi
  | cons j L ih =>
    intro acc i hi
    rw [List.foldl_cons]
    rcases List.mem_cons.mp hi with h | h
    · subst h
      exact foldl_stage_mono E lr θin _ L _ (stageStep_self_bound E lr θin acc i)
    · exact ih _ i h

/-- Along the fold, the stored best loss is either still infinity or the
validation loss of the stored best snapshot. -/
theorem foldl_stage_inv {Θ : Type} (E : TrainEnv Θ) (lr : ℚ) (θin : Θ) :
    ∀ (L : List ℕ) (acc : Flt × Θ),
      (acc.1 = Flt.inf ∨ acc.1 = E.vloss acc.2) →
      ((L.foldl (stageStep E lr θin) acc).1 = Flt.inf ∨
        (L.foldl (stageStep E lr θin) acc).1 =
          E.vloss ((L.foldl (stageStep E lr θin) acc).2)) := by
  intro L
  induction L with
  | nil => intro acc h; simpa using h
  | cons j L ih =>
    intro acc h
    rw [List.foldl_cons]
    apply ih
    by_cases hc : Flt.lt (E.vloss (E.traj lr θin j)) acc.1 = true
    · right
      simp [stageStep, hc]
    · simp only [Bool.not_eq_true] at hc
      simpa [stageStep, hc] using h

/-- One bookkeeping step never stores a NaN best loss. -/
theorem stageStep_ne_nan {Θ : Type} (E : TrainEnv Θ) (lr : ℚ) (θin : Θ)
    (acc : Flt × Θ) (i : ℕ) (h : acc.1 ≠ Flt.nan) :
    (stageStep E lr θin acc i).1 ≠ Flt.nan := by
  by_cases hc : Flt.lt (E.vloss (E.traj lr θin i)) acc.1 = true
  · intro hn
    have hv : E.vloss (E.traj lr θin i) = Flt.nan := by
      have hred : (stageStep E lr θin acc i).1 = E.vloss (E.traj lr θin i) := by
        simp [stageStep, hc]
      rw [← hred]
      exact hn
    rw [hv, flt_lt_nan_left] at hc
    simp at hc
  · simp only [Bool.not_eq_true] at hc
    simpa [stageStep, hc] using h

/-- The fold of bookkeeping steps never stores a NaN best loss. -/
theorem foldl_stage_ne_nan {Θ : Type} (E : TrainEnv Θ) (lr : ℚ) (θin : Θ) :
    ∀ (L : List ℕ) (acc : Flt × Θ), acc.1 ≠ Flt.nan →
      ((L.foldl (stageStep E lr θin) acc).1) ≠ Flt.nan := by
  intro L
  induction L with
  | nil => intro acc h; simpa using h
  | cons j L ih =>
    intro acc h
    rw [List.foldl_cons]
    exact ih _ (stageStep_ne_nan E lr θin acc j h)

/-- The best loss stored by a whole stage is never NaN. -/
theorem runStageAcc_ne_nan {Θ : Type} (E : TrainEnv Θ) (lr : ℚ) (θin : Θ) :
    (runStageAcc E lr θin).1 ≠ Flt.nan :=
  foldl_stage_ne_nan E lr θin (List.range 1000) (Flt.inf, θin) (by simp)

/-- The parameters reloaded at the end of a stage have a validation loss
that no post-update epoch of the stage strictly beats. -/
theorem runStage_bound {Θ : Type} (E : TrainEnv Θ) (lr : ℚ) (θin : Θ) (i : ℕ)
    (hi : i < 1000) :
    Flt.lt (E.vloss (E.traj lr θin i)) (E.vloss (runStage E lr θin)) = false := by
  have hdom := foldl_stage_dominates E lr θin (List.range 1000) (Flt.inf, θin) i
    (List.mem_range.mpr hi)
  have hinv := foldl_stage_inv E lr θin (List.range 1000) (Flt.inf, θin) (Or.inl rfl)
  rcases hinv with hfst | hfst
  · rw [hfst] at hdom
    cases hl : E.vloss (E.traj lr θin i) with
    | inf => exact flt_lt_inf_left _
    | nan => exact flt_lt_nan_left _
    | fin q =>
      rw [hl] at hdom
      rw [flt_lt_fin_inf] at hdom
      simp at hdom
  · show Flt.lt (E.vloss (E.traj lr θin i))
      (E.vloss (((List.range 1000).foldl (stageStep E lr θin) (Flt.inf, θin)).2)) = false
    rw [← hfst]
    exact hdom

/-- The full schedule is the first five stages followed by the stage at
the smallest rate. -/
theorem runSchedule_eq_last {Θ : Type} (E : TrainEnv Θ) (θ0 : Θ) :
    runSchedule E θ0 = runStage E (1 / 1000) (firstStages E θ0) := by
  simp only [runSchedule, firstStages, rates, List.foldl_cons, List.foldl_nil]

/-- A fold whose step fixes the accumulator leaves it unchanged. -/
theorem foldl_fixed {α β : Type} (f : β → α → β) (b : β) :
    ∀ L : List α, (∀ a ∈ L, f b a = b) → L.foldl f b = b := by
  intro L
  induction L with
  | nil => intro _; rfl
  | cons a L ih =>
    intro h
    rw [List.foldl_cons, h a (List.mem_cons_self a L)]
    exact ih (fun a2 ha => h a2 (List.mem_cons_of_mem _ ha))

/-- On the concrete run E0, every stage returns the constant state 1. -/
theorem e0_stage (lr θ : ℚ) : runStage E0 lr θ = 1 := by
  unfold runStage runStageAcc
  rw [show (1000 : ℕ) = 999 + 1 from rfl, List.range_succ_eq_map, List.foldl_cons]
  have hstep : stageStep E0 lr θ (Flt.inf, θ) 0 = (Flt.fin 1, 1) := by
    simp [stageStep, E0, Flt.lt]
  rw [hstep]
  have hfix : ((List.range 999).map Nat.succ).foldl (stageStep E0 lr θ) (Flt.fin 1, 1) =
      (Flt.fin 1, 1) := by
    apply foldl_fixed
    intro a ha
    simp [stageStep, E0, Flt.lt]
  rw [hfix]

/-- On the concrete run E0, the whole schedule returns the state 1. -/
theorem e0_schedule : runSchedule E0 0 = 1 := by
  simp only [runSchedule, rates, List.foldl_cons, List.foldl_nil, e0_stage]

/-- Claim C1, counterexample: a run in which every gradient update moves
the parameters to a state of validation loss one, starting from a state
of validation loss zero.  Each stage initialises its best loss to
infinity rather than to the loss of its incoming parameters, so the first
post-update epoch always becomes the checkpoint; the schedule therefore
returns parameters whose final validation loss is strictly worse than the
starting loss, refuting the claimed guarantee. -/
theorem c1_counterexample :
    Flt.le (E0.vloss (runSchedule E0 0)) (E0.vloss 0) = false := by
  rw [e0_schedule]
  rfl

/-- Claim C1, amended: the schedule returns the best checkpoint of its
final stage, so the final validation loss is never strictly worse than
the validation loss of any post-update epoch of the final stage; the
comparison with the zero-initialised starting loss is not guaranteed. -/
theorem c1_schedule_bound {Θ : Type} (E : TrainEnv Θ) (θ0 : Θ) (i : ℕ) (hi : i < 1000) :
    Flt.lt (E.vloss (E.traj (1 / 1000) (firstStages E θ0) i))
      (E.vloss (runSchedule E θ0)) = false := by
  rw [runSchedule_eq_last]
  exact runStage_bound E (1 / 1000) (firstStages E θ0) i hi

/-- Witness for the amended claim C1 at the concrete run E0. -/
theorem c1_schedule_bound_witness :
    Flt.lt (E0.vloss (E0.traj (1 / 1000) (firstStages E0 0) 0))
      (E0.vloss (runSchedule E0 0)) = false :=
  c1_schedule_bound E0 0 0 (by norm_num)

/-- Claim C4: within a stage the best snapshot is replaced exactly when
the validation loss of the epoch is strictly below the stored best loss
under the IEEE comparison; a NaN validation loss never replaces it, and
the best loss stored by a stage is never NaN. -/
theorem c4_best_snapshot_update {Θ : Type} (E : TrainEnv Θ) (lr : ℚ) (θin : Θ)
    (acc : Flt × Θ) (i : ℕ) :
    (Flt.lt (E.vloss (E.traj lr θin i)) acc.1 = true →
      stageStep E lr θin acc i = (E.vloss (E.traj lr θin i), E.traj lr θin i)) ∧
    (Flt.lt (E.vloss (E.traj lr θin i)) acc.1 = false →
      stageStep E lr θin acc i = acc) ∧
    (E.vloss (E.traj lr θin i) = Flt.nan → stageStep E lr θin acc i = acc) ∧
    (runStageAcc E lr θin).1 ≠ Flt.nan := by
  refine ⟨fun h => by simp [stageStep, h], fun h => by simp [stageStep, h],
    fun h => ?_, runStageAcc_ne_nan E lr θin⟩
  simp [stageStep, h, flt_lt_nan_left]

/-- Witness for claim C4: with a NaN validation loss the snapshot and the
best loss are kept unchanged. -/
theorem c4_best_snapshot_update_witness :
    stageStep Enan 1 0 (Flt.inf, 0) 0 = (Flt.inf, 0) :=
  (c4_best_snapshot_update Enan 1 0 (Flt.inf, 0) 0).2.2.1 rfl

/-- Witness for claim C10 on a training set with three distinct labels. -/
theorem c10_states_hardcoded_witness :
    (trainInit Xtrain0 gm0 2).pl.polynomial.length = 1 ∧ ([(0 : ℝ), 0]).length = 2 :=
  ⟨(c10_states_hardcoded Xtrain0 gm0 2).1,
    (c10_states_hardcoded Xtrain0 gm0 2).2 [[0, 0]] [0, 0]
      (by show ([(0 : ℝ), 0]) ∈ PolynomialLayer.forward (PolynomialLayer.init 2 2) [[0, 0]]
          rw [plInit_forward_eval]
          exact List.mem_singleton_self _)⟩

/-- Every element of a zipWith list comes from elements of the two input
lists. -/
theorem mem_zipWith_ex {α β γ : Type} (f : α → β → γ) :
    ∀ (as : List α) (bs : List β) (c : γ), c ∈ List.zipWith f as bs →
      ∃ a ∈ as, ∃ b ∈ bs, c = f a b := by
  intro as
  induction as with
  | nil => intro bs c hc; simp at hc
  | cons a as ih =>
    intro bs c hc
    cases bs with
    | nil => simp at hc
    | cons b bs =>
      rw [List.zipWith_cons_cons] at hc
      rcases List.mem_cons.mp hc with h | h
      · exact ⟨a, List.mem_cons_self a _, b, List.mem_cons_self b _, h⟩
      · rcases ih bs c h with ⟨a1, ha1, b1, hb1, hEq⟩
        exact ⟨a1, List.mem_cons_of_mem _ ha1, b1, List.mem_cons_of_mem _ hb1, hEq⟩

/-- All per-cell scores are non-negative when the mixing weights are. -/
theorem cellScores_nonneg (m : Mixture) (row : List ℝ)
    (hw0 : ∀ w ∈ m.weights, 0 ≤ w) :
    ∀ q ∈ cellScores m row, 0 ≤ q := by
  intro q hq
  rcases mem_zipWith_ex _ _ _ q hq with ⟨l, _, w, hw, rfl⟩
  exact mul_nonneg (Real.exp_pos _).le (hw0 w hw)

/-- The sum of exponential-weight products is positive when the weights
are non-negative, one of them is positive, and the lists have equal
length. -/
theorem zipWith_exp_sum_pos :
    ∀ (lp ws : List ℝ) (M : ℝ), (∀ w ∈ ws, 0 ≤ w) → (∃ w ∈ ws, 0 < w) →
      ws.length = lp.length →
      0 < (List.zipWith (fun l w => Real.exp (l - M) * w) lp ws).sum := by
  intro lp
  induction lp with
  | nil =>
    intro ws M h0 hp hl
    rcases hp with ⟨w, hw, _⟩
    have hws : ws = [] := by simpa using hl
    subst hws
    simp at hw
  | cons l lp ih =>
    intro ws M h0 hp hl
    cases ws with
    | nil => rcases hp with ⟨w, hw, _⟩; simp at hw
    | cons w ws =>
      rw [List.zipWith_cons_cons, List.sum_cons]
      have hrest0 : 0 ≤ (List.zipWith (fun l2 w2 => Real.exp (l2 - M) * w2) lp ws).sum := by
        apply List.sum_nonneg
        intro q hq
        rcases mem_zipWith_ex _ _ _ q hq with ⟨l1, _, w1, hw1, rfl⟩
        exact mul_nonneg (Real.exp_pos _).le (h0 w1 (List.mem_cons_of_mem _ hw1))
      rcases hp with ⟨w1, hw1mem, hw1pos⟩
      rcases List.mem_cons.mp hw1mem with h | h
      · subst h
        have hhead : 0 < Real.exp (l - M) * w1 := mul_pos (Real.exp_pos _) hw1pos
        linarith
      · have htail : 0 < (List.zipWith (fun l2 w2 => Real.exp (l2 - M) * w2) lp ws).sum := by
          apply ih ws M
          · intro w2 hw2
            exact h0 w2 (List.mem_cons_of_mem _ hw2)
          · exact ⟨w1, h, hw1pos⟩
          · simpa using hl
        have hhead0 : 0 ≤ Real.exp (l - M) * w :=
          mul_nonneg (Real.exp_pos _).le (h0 w (List.mem_cons_self _ _))
        linarith

/-- The sum of the per-cell scores of one cell is positive. -/
theorem cellScores_sum_pos (m : Mixture) (row : List ℝ)
    (hw0 : ∀ w ∈ m.weights, 0 ≤ w) (hwp : ∃ w ∈ m.weights, 0 < w)
    (hlen : m.weights.length = m.component.length) :
    0 < (cellScores m row).sum := by
  unfold cellScores
  apply zipWith_exp_sum_pos _ _ _ hw0 hwp
  simp [hlen]

/-- Per-cell responsibilities lie in the unit interval. -/
theorem cellResp_unit (m : Mixture) (row : List ℝ)
    (hw0 : ∀ w ∈ m.weights, 0 ≤ w) (hwp : ∃ w ∈ m.weights, 0 < w)
    (hlen : m.weights.length = m.component.length) :
    ∀ q ∈ cellResp m row, 0 ≤ q ∧ q ≤ 1 := by
  intro q hq
  unfold cellResp at hq
  rcases List.mem_map.mp hq with ⟨a, ha, rfl⟩
  have hS := cellScores_sum_pos m row hw0 hwp hlen
  have ha0 := cellScores_nonneg m row hw0 a ha
  constructor
  · exact div_nonneg ha0 hS.le
  · rw [div_le_one hS]
    exact List.single_le_sum (cellScores_nonneg m row hw0) a ha

/-- Reading a list with a default yields the default or a member. -/
theorem getD_mem_or {α : Type} :
    ∀ (l : List α) (n : ℕ) (d : α), l.getD n d = d ∨ l.getD n d ∈ l := by
  intro l
  induction l with
  | nil => intro n d; left; cases n <;> rfl
  | cons a l ih =>
    intro n d
    cases n with
    | zero => right; exact List.mem_cons_self _ _
    | succ n =>
      rcases ih n d with h | h
      · left; exact h
      · right; exact List.mem_cons_of_mem _ h

/-- Every entry read from the responsibilities, including out-of-range
reads that return the default zero, lies in the unit interval. -/
theorem cellResp_getD_unit (m : Mixture) (row : List ℝ)
    (hw0 : ∀ w ∈ m.weights, 0 ≤ w) (hwp : ∃ w ∈ m.weights, 0 < w)
    (hlen : m.weights.length = m.component.length) (c : ℕ) :
    0 ≤ (cellResp m row).getD c 0 ∧ (cellResp m row).getD c 0 ≤ 1 := by
  rcases getD_mem_or (cellResp m row) c 0 with h | h
  · rw [h]; norm_num
  · exact cellResp_unit m row hw0 hwp hlen _ h

/-- Claim C6: for a non-empty batch, non-negative and not-all-zero mixing
weights, and one weight per component, every entry of the mixture
signature lies in the unit interval, and a single-component mixture
returns the signature consisting of the single entry one. -/
theorem c6_signature_unit_interval (m : Mixture) (x : List (List ℝ))
    (hx : x ≠ []) (hw0 : ∀ w ∈ m.weights, 0 ≤ w) (hwp : ∃ w ∈ m.weights, 0 < w)
    (hlen : m.weights.length = m.component.length) :
    (∀ e ∈ Mixture.forward m x, 0 ≤ e ∧ e ≤ 1) ∧
      (m.component.length = 1 → Mixture.forward m x = [1]) := by
  have hN : (0 : ℝ) < (x.length : ℝ) := by
    have h1 : 0 < x.length := List.length_pos.mpr hx
    exact_mod_cast h1
  constructor
  · intro e he
    unfold Mixture.forward at he
    rcases List.mem_map.mp he with ⟨c, _, rfl⟩
    have hsum0 : 0 ≤ (x.map (fun row => (cellResp m row).getD c 0)).sum := by
      apply List.sum_nonneg
      intro q hq
      rcases List.mem_map.mp hq with ⟨row, _, rfl⟩
      exact (cellResp_getD_unit m row hw0 hwp hlen c).1
    have hsum1 : (x.map (fun row => (cellResp m row).getD c 0)).sum ≤ (x.length : ℝ) := by
      have hb : ∀ q ∈ x.map (fun row => (cellResp m row).getD c 0), q ≤ (1 : ℝ) := by
        intro q hq
        rcases List.mem_map.mp hq with ⟨row, _, rfl⟩
        exact (cellResp_getD_unit m row hw0 hwp hlen c).2
      have hs := List.sum_le_card_nsmul _ _ hb
      simpa [nsmul_eq_mul] using hs
    refine ⟨div_nonneg hsum0 hN.le, ?_⟩
    rw [div_le_one hN]
    exact hsum1
  · intro h1
    obtain ⟨g, hg⟩ := List.length_eq_one.mp h1
    have hwl : m.weights.length = 1 := by rw [hlen, h1]
    obtain ⟨w, hwEq⟩ := List.length_eq_one.mp hwl
    have hwpos : 0 < w := by
      rcases hwp with ⟨w1, hmem, hpos⟩
      rw [hwEq] at hmem
      have hw1 := List.mem_singleton.mp hmem
      rwa [hw1] at hpos
    have hresp : ∀ row : List ℝ, cellResp m row = [1] := by
      intro row
      simp [cellResp, cellScores, hg, hwEq, listMax, div_self hwpos.ne']
    simp [Mixture.forward, hg, hresp, List.map_const', List.sum_replicate, nsmul_eq_mul,
      div_self hN.ne']
    rw [show List.range 1 = [0] from rfl]
    simp [div_self hN.ne']

/-- Witness for claim C6 at a concrete single-component mixture. -/
theorem c6_signature_unit_interval_witness : Mixture.forward m1 [[(0 : ℝ)]] = [1] :=
  (c6_signature_unit_interval m1 [[0]] (by simp)
    (by intro w hw
        have hw1 : w = 1 := by simpa [m1] using hw
        rw [hw1]
        norm_num)
    ⟨1, by simp [m1], by norm_num⟩ rfl).2 rfl

/-- Claim C7: the mixture signature does not change when the cells of the
input batch are permuted. -/
theorem c7_permutation_invariance (m : Mixture) (x y : List (List ℝ)) (h : x.Perm y) :
    Mixture.forward m x = Mixture.forward m y := by
  unfold Mixture.forward
  have hlen := h.length_eq
  have hfun : (fun c => (x.map (fun row => (cellResp m row).getD c 0)).sum / (x.length : ℝ)) =
      (fun c => (y.map (fun row => (cellResp m row).getD c 0)).sum / (y.length : ℝ)) := by
    funext c
    rw [(h.map (fun row => (cellResp m row).getD c 0)).sum_eq, hlen]
  rw [hfun]

/-- Witness for claim C7 on a concrete two-cell batch and its swap. -/
theorem c7_permutation_invariance_witness :
    Mixture.forward m1 [[(0 : ℝ)], [1]] = Mixture.forward m1 [[1], [0]] :=
  c7_permutation_invariance m1 _ _ (List.Perm.swap _ _ _)

end Cloudpred
